import Mathlib

/-!
Verification of the plan-cache core of a smart-home orchestration service.

This file gives a shallow embedding, in Lean 4, of the cache service
(`src/services/cache.ts`), the plan-refinement step of the planner agent
(`src/agents/planner.agent.ts`) and the execution-outcome feedback step of
the orchestrator (`src/services/llm.ts`), and proves or refutes the
specified properties of those components.

Modelling conventions:
* JavaScript numbers are modelled as exact rationals (`ℚ`); timestamps are
  rationals counting milliseconds (the code stores ISO strings at
  millisecond precision and converts back with `Date.parse`, which is exact
  at that precision).
* The insertion-ordered `Map` of the cache is modelled as an association
  list `List (String × CacheEntry)` in insertion order, with `mapGet`,
  `mapSet` (replace in place or append) and `mapDelete` mirroring
  `Map.get` / `Map.set` / `Map.delete`.
* `crypto.createHash("md5")` is modelled by a full implementation of MD5
  over the UTF-8 bytes of the input string, rendering 32 lowercase hex
  characters, exactly as `digest("hex")` does.
* `JSON.parse` applied to a string whose parse fails throws; fallible code
  paths are therefore modelled in the `Except String` monad, with a fixed
  error message standing in for the thrown exception object.
* `Array.prototype.sort` with the `localeCompare` comparator is modelled as
  a stable insertion sort by code-point order of the entity id (entity ids
  are plain ASCII, where `localeCompare` agrees with code-point order).
* The TS string enums (`IntentType`, `ExecutionStatus`) are string-valued;
  they are modelled as plain strings, as the code compares and concatenates
  them as strings.
-/

set_option maxRecDepth 100000

set_option allowUnsafeReducibility true in
attribute [semireducible] Rat.add Rat.mul Rat.sub Rat.inv Rat.ofScientific

/-! ## String utilities -/

/-- Lexicographic code-point comparison of character lists; models the
`localeCompare`-based comparator on the ASCII entity ids that occur. -/
def lexLe : List Char → List Char → Bool
  | [], _ => true
  | _ :: _, [] => false
  | a :: as, b :: bs =>
    if a.toNat < b.toNat then true
    else if b.toNat < a.toNat then false
    else lexLe as bs

/-- Substring occurrence helper for `jsIncludes`. -/
def subOccurs (pat : List Char) : List Char → Bool
  | [] => pat.isEmpty
  | c :: rest => pat.isPrefixOf (c :: rest) || subOccurs pat rest

/-- Models `String.prototype.includes`. -/
def jsIncludes (s sub : String) : Bool := subOccurs sub.toList s.toList

/-! ## MD5 (models `crypto.createHash("md5").update(s).digest("hex")`) -/

/-- Truncation to 32 bits. -/
def m32 (n : Nat) : Nat := n % 4294967296

/-- Bitwise complement on 32 bits. -/
def compl32 (x : Nat) : Nat := 4294967295 - m32 x

/-- 32-bit left rotation. -/
def rotl32 (x n : Nat) : Nat := m32 (x <<< n) + (m32 x >>> (32 - n))

/-- UTF-8 encoding of a single character. -/
def utf8EncodeChar (c : Char) : List Nat :=
  let n := c.toNat
  if n < 128 then [n]
  else if n < 2048 then [192 + n / 64, 128 + n % 64]
  else if n < 65536 then [224 + n / 4096, 128 + (n / 64) % 64, 128 + n % 64]
  else [240 + n / 262144, 128 + (n / 4096) % 64, 128 + (n / 64) % 64, 128 + n % 64]

/-- UTF-8 bytes of a string. -/
def strBytes (s : String) : List Nat := (s.toList.map utf8EncodeChar).flatten

/-- Little-endian byte decomposition (`k` bytes). -/
def leBytes : Nat → Nat → List Nat
  | 0, _ => []
  | k + 1, n => (n % 256) :: leBytes k (n / 256)

/-- MD5 padding: a 1-bit, zeros to 56 mod 64, and the 64-bit bit length. -/
def padBytes (msg : List Nat) : List Nat :=
  let len := msg.length
  let zeros := (120 - ((len + 1) % 64)) % 64
  msg ++ [128] ++ List.replicate zeros 0 ++ leBytes 8 ((len * 8) % 18446744073709551616)

/-- Splits `l` into `k` chunks of `sz` elements. -/
def chunkList : Nat → Nat → List Nat → List (List Nat)
  | 0, _, _ => []
  | k + 1, sz, l => l.take sz :: chunkList k sz (l.drop sz)

/-- A 32-bit word from four little-endian bytes. -/
def leWordOf (b : List Nat) : Nat :=
  match b with
  | [x0, x1, x2, x3] => x0 + 256 * x1 + 65536 * x2 + 16777216 * x3
  | _ => 0

/-- The 64 MD5 additive constants. -/
def md5K : List Nat :=
  [0xd76aa478, 0xe8c7b756, 0x242070db, 0xc1bdceee,
   0xf57c0faf, 0x4787c62a, 0xa8304613, 0xfd469501,
   0x698098d8, 0x8b44f7af, 0xffff5bb1, 0x895cd7be,
   0x6b901122, 0xfd987193, 0xa679438e, 0x49b40821,
   0xf61e2562, 0xc040b340, 0x265e5a51, 0xe9b6c7aa,
   0xd62f105d, 0x02441453, 0xd8a1e681, 0xe7d3fbc8,
   0x21e1cde6, 0xc33707d6, 0xf4d50d87, 0x455a14ed,
   0xa9e3e905, 0xfcefa3f8, 0x676f02d9, 0x8d2a4c8a,
   0xfffa3942, 0x8771f681, 0x6d9d6122, 0xfde5380c,
   0xa4beea44, 0x4bdecfa9, 0xf6bb4b60, 0xbebfbc70,
   0x289b7ec6, 0xeaa127fa, 0xd4ef3085, 0x04881d05,
   0xd9d4d039, 0xe6db99e5, 0x1fa27cf8, 0xc4ac5665,
   0xf4292244, 0x432aff97, 0xab9423a7, 0xfc93a039,
   0x655b59c3, 0x8f0ccc92, 0xffeff47d, 0x85845dd1,
   0x6fa87e4f, 0xfe2ce6e0, 0xa3014314, 0x4e0811a1,
   0xf7537e82, 0xbd3af235, 0x2ad7d2bb, 0xeb86d391]

/-- The 64 MD5 per-round shift amounts. -/
def md5S : List Nat :=
  [7, 12, 17, 22, 7, 12, 17, 22, 7, 12, 17, 22, 7, 12, 17, 22,
   5, 9, 14, 20, 5, 9, 14, 20, 5, 9, 14, 20, 5, 9, 14, 20,
   4, 11, 16, 23, 4, 11, 16, 23, 4, 11, 16, 23, 4, 11, 16, 23,
   6, 10, 15, 21, 6, 10, 15, 21, 6, 10, 15, 21, 6, 10, 15, 21]

/-- The MD5 round function for step `i`. -/
def md5F (i b c d : Nat) : Nat :=
  if i < 16 then (b &&& c) ||| (compl32 b &&& d)
  else if i < 32 then (d &&& b) ||| (compl32 d &&& c)
  else if i < 48 then b ^^^ c ^^^ d
  else c ^^^ (b ||| compl32 d)

/-- The MD5 message-word index for step `i`. -/
def md5G (i : Nat) : Nat :=
  if i < 16 then i
  else if i < 32 then (5 * i + 1) % 16
  else if i < 48 then (3 * i + 5) % 16
  else (7 * i) % 16

/-- One of the 64 MD5 steps. -/
def md5Step (M : List Nat) (st : Nat × Nat × Nat × Nat) (i : Nat) : Nat × Nat × Nat × Nat :=
  match st with
  | (a, b, c, d) =>
    let f := m32 (md5F i b c d + a + md5K.getD i 0 + M.getD (md5G i) 0)
    (d, m32 (b + rotl32 f (md5S.getD i 0)), b, c)

/-- Processes one 64-byte block. -/
def md5Block (st : Nat × Nat × Nat × Nat) (block : List Nat) : Nat × Nat × Nat × Nat :=
  let M := (chunkList 16 4 block).map leWordOf
  match st, (List.range 64).foldl (md5Step M) st with
  | (a0, b0, c0, d0), (a, b, c, d) => (m32 (a0 + a), m32 (b0 + b), m32 (c0 + c), m32 (d0 + d))

/-- The 16 digest bytes of a string's MD5. -/
def md5Bytes (s : String) : List Nat :=
  let msg := padBytes (strBytes s)
  let blocks := chunkList (msg.length / 64) 64 msg
  match blocks.foldl md5Block (0x67452301, 0xefcdab89, 0x98badcfe, 0x10325476) with
  | (a, b, c, d) => leBytes 4 a ++ leBytes 4 b ++ leBytes 4 c ++ leBytes 4 d

/-- Lowercase hex digit. -/
def hexDigitChar (n : Nat) : Char :=
  ( "0123456789abcdef".toList).getD n '0'

/-- Two lowercase hex characters for a byte. -/
def byteHex (n : Nat) : String :=
  String.mk [hexDigitChar (n / 16), hexDigitChar (n % 16)]

/-- The 32-character lowercase hex MD5 digest of a string. -/
def md5Hex (s : String) : String := String.join ((md5Bytes s).map byteHex)

/-! ## JSON validity (models whether `JSON.parse` succeeds)

`findFuzzyMatch` runs `JSON.parse(entry.contextHash)` on every candidate;
only success or failure of the parse is observable (the parsed value is
never used), so the model only decides validity, with a fueled
recursive-descent recognizer of the JSON grammar. The fuel passed by
`jsonValid` is generous for any nesting that can occur; the strings this is
ever applied to are 32-character digests or the literal `"simple"`. -/

/-- JSON whitespace. -/
def jsonWs (c : Char) : Bool := c = ' ' || c = '\t' || c = '\n' || c = '\r'

/-- Drops leading JSON whitespace. -/
def skipWs : List Char → List Char
  | [] => []
  | c :: rest => if jsonWs c then skipWs rest else c :: rest

/-- Matches a literal character sequence. -/
def expectLit : List Char → List Char → Option (List Char)
  | [], input => some input
  | _ :: _, [] => none
  | c :: cs, r :: rs => if r = c then expectLit cs rs else none

/-- Splits off a maximal run of decimal digits. -/
def takeDigits : List Char → List Char × List Char
  | [] => ([], [])
  | c :: cs =>
    if c.isDigit then
      let p := takeDigits cs
      (c :: p.1, p.2)
    else ([], c :: cs)

/-- Integer part of a JSON number: `0`, or a nonzero digit then digits. -/
def parseIntPart : List Char → Option (List Char)
  | [] => none
  | c :: cs =>
    if c = '0' then some cs
    else if c.isDigit then some (takeDigits cs).2
    else none

/-- Optional fraction part `.digits`. -/
def parseFrac : List Char → Option (List Char)
  | '.' :: rest =>
    let p := takeDigits rest
    if p.1.isEmpty then none else some p.2
  | cs => some cs

/-- Optional exponent part `e|E [+|-] digits`. -/
def parseExp : List Char → Option (List Char)
  | [] => some []
  | c :: rest =>
    if c = 'e' ∨ c = 'E' then
      let rest2 := match rest with
        | s :: r2 => if s = '+' ∨ s = '-' then r2 else s :: r2
        | [] => ([] : List Char)
      let p := takeDigits rest2
      if p.1.isEmpty then none else some p.2
    else some (c :: rest)

/-- A complete JSON number. -/
def parseNumber (cs : List Char) : Option (List Char) :=
  let cs1 := match cs with
    | '-' :: r => r
    | _ => cs
  match parseIntPart cs1 with
  | none => none
  | some r1 =>
    match parseFrac r1 with
    | none => none
    | some r2 => parseExp r2

/-- Hex digit test for `\u` escapes. -/
def isHexDigitChar (c : Char) : Bool :=
  c.isDigit || (97 ≤ c.toNat && c.toNat ≤ 102) || (65 ≤ c.toNat && c.toNat ≤ 70)

/-- Body of a JSON string after the opening quote (fueled). -/
def parseStringBody : Nat → List Char → Option (List Char)
  | 0, _ => none
  | _, [] => none
  | fuel + 1, c :: rest =>
    if c = '"' then some rest
    else if c = '\\' then
      match rest with
      | [] => none
      | e :: r2 =>
        if e = '"' ∨ e = '\\' ∨ e = '/' ∨ e = 'b' ∨ e = 'f' ∨ e = 'n' ∨ e = 'r' ∨ e = 't' then
          parseStringBody fuel r2
        else if e = 'u' then
          match r2 with
          | h1 :: h2 :: h3 :: h4 :: r3 =>
            if isHexDigitChar h1 && isHexDigitChar h2 && isHexDigitChar h3 && isHexDigitChar h4 then
              parseStringBody fuel r3
            else none
          | _ => none
        else none
    else if c.toNat < 32 then none
    else parseStringBody fuel rest

/-- Fueled JSON recognizer. `mode` 0: value, 3: array body after `[`,
1: array elements loop, 4: object body after the brace, 2: object members
loop. Returns the unconsumed remainder on success. -/
def pJ : Nat → Nat → List Char → Option (List Char)
  | _, 0, _ => none
  | 0, fuel + 1, cs =>
    match skipWs cs with
    | [] => none
    | c :: rest =>
      if c = 'n' then expectLit ( "ull".toList) rest
      else if c = 't' then expectLit ( "rue".toList) rest
      else if c = 'f' then expectLit ( "alse".toList) rest
      else if c = '"' then parseStringBody (rest.length + 1) rest
      else if c = '-' ∨ c.isDigit then parseNumber (c :: rest)
      else if c = '[' then pJ 3 fuel rest
      else if c = Char.ofNat 123 then pJ 4 fuel rest
      else none
  | 3, fuel + 1, cs =>
    match skipWs cs with
    | ']' :: rest => some rest
    | cs1 => pJ 1 fuel cs1
  | 1, fuel + 1, cs =>
    match pJ 0 fuel cs with
    | none => none
    | some r1 =>
      match skipWs r1 with
      | ',' :: r3 => pJ 1 fuel r3
      | ']' :: r3 => some r3
      | _ => none
  | 4, fuel + 1, cs =>
    match skipWs cs with
    | [] => none
    | c :: rest => if c = Char.ofNat 125 then some rest else pJ 2 fuel (c :: rest)
  | 2, fuel + 1, cs =>
    match skipWs cs with
    | '"' :: rest =>
      match parseStringBody (rest.length + 1) rest with
      | none => none
      | some r1 =>
        match skipWs r1 with
        | ':' :: r2 =>
          match pJ 0 fuel r2 with
          | none => none
          | some r3 =>
            match skipWs r3 with
            | ',' :: r4 => pJ 2 fuel r4
            | c :: r4 => if c = Char.ofNat 125 then some r4 else none
            | [] => none
        | _ => none
    | _ => none
  | _, _ + 1, _ => none

/-- Whether `JSON.parse` succeeds on `s`. -/
def jsonValid (s : String) : Bool :=
  match pJ 0 (4 * s.toList.length + 16) s.toList with
  | some rest => (skipWs rest).isEmpty
  | none => false

/-! ## Data model (from `src/types/index.ts`) -/

/-- A Home Assistant device state (`DeviceState`). The `attributes` record
is carried opaquely as key/value pairs; no modelled code reads it. -/
structure DeviceState where
  entityId : String
  entityName : String
  state : String
  attributes : List (String × String)
deriving DecidableEq, Repr

/-- The environment snapshot (`ContextState`). `timeOfDay` is one of the
four bucket strings in the source union type. -/
structure ContextState where
  timestamp : String
  devices : List DeviceState
  presence : Option Bool
  timeOfDay : String
  temperature : Option ℚ
  humidity : Option ℚ
deriving DecidableEq, Repr

/-- A recognized intent (`Intent`). The `IntentType` enum is string-valued
and is handled as a string throughout the modelled code. -/
structure Intent where
  intent : String
  confidence : ℚ
  timeHint : Option String
  rawInput : String
deriving DecidableEq, Repr

/-- One plan step (`ActionStep`). -/
structure ActionStep where
  service : String
  entityId : String
  targetName : String
  description : String
deriving DecidableEq, Repr

/-- A behaviour plan (`Plan`). -/
structure Plan where
  planId : String
  intent : String
  steps : List ActionStep
  estimatedTime : Option ℚ
  confidence : ℚ
  cacheable : Bool
deriving DecidableEq, Repr

/-- A cache entry (`CacheEntry`); `lastUsed` is a millisecond timestamp. -/
structure CacheEntry where
  cacheKey : String
  intent : String
  plan : Plan
  contextHash : String
  lastUsed : ℚ
  usageCount : Nat
  successRate : ℚ
deriving DecidableEq, Repr

/-- The cache strategy enum (`CacheStrategy`). -/
inductive CacheStrategy where
  | NONE
  | SIMPLE
  | CONTEXT_AWARE
deriving DecidableEq, Repr

/-- The cache configuration (`CacheConfig`); `ttl` is in seconds.
`maxSize` is a natural number: `parseInt` yields an integer, and a
negative `maxSize` makes `size >= maxSize` always true, which coincides
with the behaviour of `maxSize = 0` here. -/
structure CacheConfig where
  strategy : CacheStrategy
  ttl : ℚ
  maxSize : Nat
deriving DecidableEq, Repr

/-- The result record of `CacheService.query`. -/
structure QueryResult where
  hit : Bool
  entry : Option CacheEntry
  reason : Option String
deriving DecidableEq, Repr

/-- Decidable equality for `Except`, used to evaluate closed query results. -/
instance {ε α : Type} [DecidableEq ε] [DecidableEq α] : DecidableEq (Except ε α) := fun x y =>
  match x, y with
  | .ok a, .ok b => if h : a = b then isTrue (by rw [h]) else isFalse (by simp [h])
  | .error a, .error b => if h : a = b then isTrue (by rw [h]) else isFalse (by simp [h])
  | .ok _, .error _ => isFalse (by simp)
  | .error _, .ok _ => isFalse (by simp)

/-- The cache storage: a `Map<string, CacheEntry>` in insertion order. -/
abbrev Cache := List (String × CacheEntry)

/-- Models `Map.get`. -/
def mapGet : Cache → String → Option CacheEntry
  | [], _ => none
  | (k', e) :: rest, k => if k' = k then some e else mapGet rest k

/-- Models `Map.set`: replaces in place if the key is present (keeping its
iteration position, as JS `Map` does), otherwise appends. -/
def mapSet : Cache → String → CacheEntry → Cache
  | [], k, v => [(k, v)]
  | (k', e) :: rest, k, v => if k' = k then (k, v) :: rest else (k', e) :: mapSet rest k v

/-- Models `Map.delete`. -/
def mapDelete : Cache → String → Cache
  | [], _ => []
  | (k', e) :: rest, k => if k' = k then mapDelete rest k else (k', e) :: mapDelete rest k

/-! ## Context fingerprint (from `CacheService.computeContextHash`) -/

/-- The reduced device view `{ id, state }` used by the fingerprint. -/
structure NormDevice where
  id : String
  state : String
deriving DecidableEq, Repr

/-- The comparator `(a, b) => a.id.localeCompare(b.id)` as a total Boolean
order on reduced devices. -/
def devLe (a b : NormDevice) : Bool := lexLe a.id.toList b.id.toList

/-- Stable insertion used to model the (stable) `Array.prototype.sort`. -/
def insertDev (x : NormDevice) : List NormDevice → List NormDevice
  | [] => [x]
  | y :: ys => if devLe x y then x :: y :: ys else y :: insertDev x ys

/-- Stable sort of the reduced device list by entity id. -/
def sortDevs : List NormDevice → List NormDevice
  | [] => []
  | x :: xs => insertDev x (sortDevs xs)

/-- `Math.round`: round half toward positive infinity. -/
def jsRound (q : ℚ) : ℚ := (Rat.floor (q + 1/2) : ℚ)

/-- `Math.round(x * 10) / 10`: round to one decimal. -/
def roundTenth (q : ℚ) : ℚ := jsRound (q * 10) / 10

/-- The canonicalized reduced view of a snapshot that gets serialized and
hashed. -/
structure NormalizedContext where
  timeOfDay : String
  presence : Option Bool
  temperature : ℚ
  humidity : ℚ
  devices : List NormDevice
deriving DecidableEq, Repr

/-- The object built inside `computeContextHash` before `JSON.stringify`:
`timeOfDay`, `presence`, rounded `temperature || 0` and `humidity || 0`,
and the `(id, state)` pairs sorted by id. -/
def normalizeContext (c : ContextState) : NormalizedContext :=
  { timeOfDay := c.timeOfDay
    presence := c.presence
    temperature := roundTenth (c.temperature.getD 0)
    humidity := roundTenth (c.humidity.getD 0)
    devices := sortDevs (c.devices.map (fun d => ⟨d.entityId, d.state⟩)) }

/-- JSON string escaping as performed by `JSON.stringify`. -/
def jsonEscapeChar (c : Char) : String :=
  if c = '"' then "\\\""
  else if c = '\\' then "\\\\"
  else if c = '\x08' then "\\b"
  else if c = '\t' then "\\t"
  else if c = '\n' then "\\n"
  else if c = '\x0c' then "\\f"
  else if c = '\r' then "\\r"
  else if c.toNat < 32 then "\\u00" ++ byteHex c.toNat
  else String.singleton c

/-- A JSON string literal for `s`. -/
def jsonQuote (s : String) : String :=
  "\"" ++ String.join (s.toList.map jsonEscapeChar) ++ "\""

/-- Serialization of a one-decimal number as `JSON.stringify` prints it:
no trailing `.0`, and `-0` prints as `0`. The argument is always a
multiple of `1/10` here. -/
def serializeTenth (q : ℚ) : String :=
  let n : Int := Rat.floor (q * 10)
  let sign := if n < 0 then "-" else ""
  let m := n.natAbs
  if m % 10 = 0 then sign ++ toString (m / 10)
  else sign ++ toString (m / 10) ++ "." ++ toString (m % 10)

/-- Serialization of one reduced device record. -/
def serializeDevice (d : NormDevice) : String :=
  "\x7b\"id\":" ++ jsonQuote d.id ++ ",\"state\":" ++ jsonQuote d.state ++ "\x7d"

/-- `JSON.stringify` of the normalized object. Insertion order of the
object literal gives the key order; an `undefined` `presence` is omitted
by `JSON.stringify`. -/
def serializeNormalized (n : NormalizedContext) : String :=
  "\x7b\"timeOfDay\":" ++ jsonQuote n.timeOfDay
    ++ (match n.presence with
        | none => ""
        | some b => ",\"presence\":" ++ (if b then "true" else "false"))
    ++ ",\"temperature\":" ++ serializeTenth n.temperature
    ++ ",\"humidity\":" ++ serializeTenth n.humidity
    ++ ",\"devices\":[" ++ String.intercalate "," (n.devices.map serializeDevice) ++ "]\x7d"

/-! ## Cache service (from `src/services/cache.ts`) -/

namespace CacheService

/-- `computeContextHash`: MD5 hex digest of the canonical serialization. -/
def computeContextHash (c : ContextState) : String :=
  md5Hex (serializeNormalized (normalizeContext c))

/-- `generateCacheKey`: `simple:` when no context or simple strategy,
`context:intent:hash` for context-aware, `default:` otherwise. -/
def generateCacheKey (cfg : CacheConfig) (i : Intent) (ctx : Option ContextState) : String :=
  match ctx with
  | none => "simple:" ++ i.intent
  | some c =>
    if cfg.strategy = CacheStrategy.SIMPLE then "simple:" ++ i.intent
    else if cfg.strategy = CacheStrategy.CONTEXT_AWARE then
      "context:" ++ i.intent ++ ":" ++ computeContextHash c
    else "default:" ++ i.intent

/-- `isExpired`: `now − lastUsed > ttl * 1000` (ttl in seconds,
timestamps in milliseconds). -/
def isExpired (cfg : CacheConfig) (now : ℚ) (e : CacheEntry) : Bool :=
  decide (now - e.lastUsed > cfg.ttl * 1000)

/-- The scan loop of `findFuzzyMatch`, in map iteration (= insertion)
order: entries with a different intent are skipped; for a same-intent
candidate, `JSON.parse(entry.contextHash)` runs first (its result is
unused, but a parse failure throws out of the whole query), then the
candidate is accepted if its full cache key contains the queried
time-of-day as a substring, or its success rate exceeds 0.8. The pair
returned carries the map key of the entry, which the model uses to mirror
in-place mutation of the found entry object. -/
def fuzzyScan (i : Intent) (tod : String) : Cache → Except String (Option (String × CacheEntry))
  | [] => .ok none
  | (k, e) :: rest =>
    if e.intent ≠ i.intent then fuzzyScan i tod rest
    else if jsonValid e.contextHash = false then .error "Unexpected token in JSON"
    else if jsIncludes k tod || decide (e.successRate > 8/10) then .ok (some (k, e))
    else fuzzyScan i tod rest

/-- `findFuzzyMatch`. The source computes `computeContextHash(context)`
into an unused local before scanning; the dead binding is kept here. -/
def findFuzzyMatch (i : Intent) (c : ContextState) (cache : Cache) :
    Except String (Option (String × CacheEntry)) :=
  let _contextHash := computeContextHash c
  fuzzyScan i c.timeOfDay cache

/-- `query`. Returns the result record together with the cache state after
the call; a thrown `JSON.parse` exception is the `Except.error` case, in
which the cache is unchanged (the scan mutates nothing before throwing).
On expiry the source deletes `key` — the exact derived key — even when the
candidate was found by fuzzy match under a different key. On a hit the
found entry is mutated in place (usage counter, last-used). -/
def query (cfg : CacheConfig) (now : ℚ) (i : Intent) (ctx : Option ContextState)
    (cache : Cache) : Except String (QueryResult × Cache) :=
  if cfg.strategy = CacheStrategy.NONE then
    .ok ({ hit := false, entry := none, reason := some "缓存未启用" }, cache)
  else
    let key := generateCacheKey cfg i ctx
    let found : Except String (Option (String × CacheEntry)) :=
      match mapGet cache key with
      | some e => .ok (some (key, e))
      | none =>
        match ctx with
        | some c =>
          if cfg.strategy = CacheStrategy.CONTEXT_AWARE then findFuzzyMatch i c cache
          else .ok none
        | none => .ok none
    match found with
    | .error msg => .error msg
    | .ok none => .ok ({ hit := false, entry := none, reason := some "未找到匹配缓存" }, cache)
    | .ok (some (k0, e)) =>
      if isExpired cfg now e then
        .ok ({ hit := false, entry := none, reason := some "缓存已过期" }, mapDelete cache key)
      else
        let e' : CacheEntry := { e with usageCount := e.usageCount + 1, lastUsed := now }
        .ok ({ hit := true, entry := some e', reason := none }, mapSet cache k0 e')

/-- The eviction utility score
`(usageCount * successRate) / (1 + (now − lastUsed))`. -/
def evictScore (now : ℚ) (e : CacheEntry) : ℚ :=
  ((e.usageCount : ℚ) * e.successRate) / (1 + (now - e.lastUsed))

/-- The minimum-score fold of `evictLeastUseful`. The JS loop starts with
`minScore = Infinity`, so the first entry always becomes the initial
candidate (every score of a reachable entry is a finite number); `acc` is
`none` while no candidate has been taken. -/
def evictFold (now : ℚ) : Cache → Option (String × ℚ) → Option (String × ℚ)
  | [], acc => acc
  | (k, e) :: rest, acc =>
    let s := evictScore now e
    match acc with
    | none => evictFold now rest (some (k, s))
    | some (k0, m) =>
      if s < m then evictFold now rest (some (k, s)) else evictFold now rest (some (k0, m))

/-- `evictLeastUseful`: removes the entry with the minimal utility score
(first such in iteration order); no-op on an empty cache. -/
def evictLeastUseful (now : ℚ) (cache : Cache) : Cache :=
  if cache.isEmpty then cache
  else
    match evictFold now cache none with
    | some (k, _) => mapDelete cache k
    | none => cache

/-- `store`: no-op for strategy `NONE` or a non-cacheable plan; evicts one
entry when at capacity; then inserts the fresh entry (usage count 1,
success rate 1.0) at the derived key, fingerprint `"simple"` when no
context was supplied. -/
def store (cfg : CacheConfig) (now : ℚ) (i : Intent) (plan : Plan)
    (ctx : Option ContextState) (cache : Cache) : Cache :=
  if cfg.strategy = CacheStrategy.NONE ∨ plan.cacheable = false then cache
  else
    let cache1 := if cache.length ≥ cfg.maxSize then evictLeastUseful now cache else cache
    let key := generateCacheKey cfg i ctx
    let contextHash := match ctx with
      | some c => computeContextHash c
      | none => "simple"
    mapSet cache1 key
      { cacheKey := key, intent := i.intent, plan := plan, contextHash := contextHash,
        lastUsed := now, usageCount := 1, successRate := 1 }

/-- `updateSuccessRate`: `min(1, r + 0.1)` on success, `max(0, r − 0.2)` on
failure; deletes the entry if the new rate is below 0.3; no-op when the key
is absent. -/
def updateSuccessRate (key : String) (success : Bool) (cache : Cache) : Cache :=
  match mapGet cache key with
  | none => cache
  | some e =>
    let newRate := if success then min 1 (e.successRate + 1/10) else max 0 (e.successRate - 1/5)
    if newRate < 3/10 then mapDelete cache key
    else mapSet cache key { e with successRate := newRate }

end CacheService

/-! ## Plan refinement (from `PlannerAgent.validateAndRefinePlan`) -/

namespace PlannerAgent

/-- The per-step body of the refinement loop: look up the step's device in
the snapshot; mark already-on turn-on steps and already-off turn-off steps
as skipped, mark steps whose device is absent with a warning, pass
everything else through unchanged. -/
def refineStep (c : ContextState) (step : ActionStep) : ActionStep :=
  match c.devices.find? (fun d => d.entityId == step.entityId) with
  | some device =>
    if jsIncludes step.service "turn_on" && (device.state == "on") then
      { step with description := "[已开启] " ++ step.description ++ " (跳过)" }
    else if jsIncludes step.service "turn_off" && (device.state == "off") then
      { step with description := "[已关闭] " ++ step.description ++ " (跳过)" }
    else step
  | none => { step with description := "[警告:设备不存在] " ++ step.description }

/-- `validateAndRefinePlan`: the loop pushes exactly one refined step per
input step, so it is a map over the steps; all other plan fields are
spread unchanged. -/
def validateAndRefinePlan (plan : Plan) (c : ContextState) : Plan :=
  { plan with steps := plan.steps.map (refineStep c) }

end PlannerAgent

/-! ## Orchestrator feedback step (from `Orchestrator.processUserIntent`) -/

namespace Orchestrator

/-- The success-rate feedback after execution (`llm.ts` lines 515–519):
when the plan came from a cache hit (and the status string is truthy), the
source calls `updateSuccessRate(plan.planId, status === "success")` —
passing the plan id, not a cache key. -/
def reportOutcome (cacheHit : Bool) (plan : Plan) (status : String) (cache : Cache) : Cache :=
  if cacheHit && !(status == "") then
    CacheService.updateSuccessRate plan.planId (status == "success") cache
  else cache

end Orchestrator

/-! ## Operation traces over the cache -/

/-- One externally invocable cache operation, carrying the wall-clock
timestamp at which it runs where the operation reads the clock. -/
inductive CacheOp where
  | opQuery (now : ℚ) (i : Intent) (ctx : Option ContextState)
  | opStore (now : ℚ) (i : Intent) (plan : Plan) (ctx : Option ContextState)
  | opUpdate (key : String) (success : Bool)
  | opDelete (key : String)
  | opClear

/-- State transition of one operation; a query that throws leaves the cache
as it was at the throw point (nothing is mutated before the scan throws). -/
def applyOp (cfg : CacheConfig) (cache : Cache) : CacheOp → Cache
  | .opQuery now i ctx =>
    match CacheService.query cfg now i ctx cache with
    | .ok (_, c') => c'
    | .error _ => cache
  | .opStore now i plan ctx => CacheService.store cfg now i plan ctx cache
  | .opUpdate k s => CacheService.updateSuccessRate k s cache
  | .opDelete k => mapDelete cache k
  | .opClear => []

/-- Runs a trace from the empty cache. -/
def runOps (cfg : CacheConfig) (ops : List CacheOp) : Cache :=
  ops.foldl (applyOp cfg) []

/-- Timestamps carried by clocked operations. -/
def opTime : CacheOp → Option ℚ
  | .opQuery now _ _ => some now
  | .opStore now _ _ _ => some now
  | _ => none

/-- Wall-clock monotonicity of a trace starting at time `t`. -/
def timeMonoB (t : ℚ) : List CacheOp → Bool
  | [] => true
  | op :: rest =>
    match opTime op with
    | none => timeMonoB t rest
    | some t' => decide (t ≤ t') && timeMonoB t' rest

/-! ## Spec-worded fuzzy-match definition (for the refinement comparison)

The following definitions are written from the specification's wording of
the fuzzy-match policy (as amended by the proofs below), to be compared
with `CacheService.fuzzyScan`, which is translated from the source. -/

/-- Acceptance condition in the spec's words: the candidate's full cache
key contains the queried time-of-day bucket as a substring, or its success
rate exceeds 0.8. -/
def fuzzyAccepts (tod k : String) (e : CacheEntry) : Bool :=
  jsIncludes k tod || decide (e.successRate > 8/10)

/-- Spec-worded scan over the same-intent candidates only: each candidate's
stored fingerprint must parse as JSON (failure aborts the query with an
exception); the first acceptable candidate is returned; otherwise a miss. -/
def fuzzySpecScan (tod : String) : Cache → Except String (Option (String × CacheEntry))
  | [] => .ok none
  | (k, e) :: rest =>
    if jsonValid e.contextHash = false then .error "Unexpected token in JSON"
    else if fuzzyAccepts tod k e then .ok (some (k, e))
    else fuzzySpecScan tod rest

/-- Spec-worded fuzzy match: scan, in insertion order, the entries whose
intent label equals the queried intent. -/
def fuzzySpec (i : Intent) (c : ContextState) (cache : Cache) :
    Except String (Option (String × CacheEntry)) :=
  fuzzySpecScan c.timeOfDay (cache.filter (fun p => p.2.intent == i.intent))

/-! ## Invariant predicates -/

/-- The per-entry invariant of the data-model section: success rate in
`[0, 1]` and a cacheable stored plan. -/
def entryOk (e : CacheEntry) : Prop :=
  0 ≤ e.successRate ∧ e.successRate ≤ 1 ∧ e.plan.cacheable = true

/-- The cache invariant: every stored entry is `entryOk` and the size is
bounded by the configured capacity. -/
def cacheOk (cfg : CacheConfig) (c : Cache) : Prop :=
  (∀ k e, (k, e) ∈ c → entryOk e) ∧ c.length ≤ cfg.maxSize

/-! ## Concrete fixtures

Concrete configurations, snapshots and plans used by the closed theorems
below. `ctxA`/`ctxC` are two distinct morning snapshots; `ctxB` is a
morning snapshot chosen so that its fingerprint
`"85129365619727985551639596e85127"` happens to be a valid JSON number
(so that `JSON.parse` on it succeeds), while the fingerprints of
`ctxA`/`ctxC` are not valid JSON. -/

/-- A context-aware configuration: ttl 3600 s, capacity 50. -/
def cfgCA : CacheConfig := { strategy := .CONTEXT_AWARE, ttl := 3600, maxSize := 50 }

/-- A simple-strategy configuration. -/
def cfgS : CacheConfig := { strategy := .SIMPLE, ttl := 3600, maxSize := 50 }

/-- A disabled-cache configuration. -/
def cfgN : CacheConfig := { strategy := .NONE, ttl := 3600, maxSize := 50 }

/-- A simple-strategy configuration with a negative ttl. -/
def cfgNegTtl : CacheConfig := { strategy := .SIMPLE, ttl := -1, maxSize := 50 }

/-- A simple-strategy configuration with capacity 0. -/
def cfgZero : CacheConfig := { strategy := .SIMPLE, ttl := 3600, maxSize := 0 }

/-- A recognized "sleep" intent. -/
def sleepI : Intent :=
  { intent := "sleep", confidence := 9/10, timeHint := none, rawInput := "睡觉" }

/-- The light device of the sample snapshots, in state `st`. -/
def devA (st : String) : DeviceState :=
  { entityId := "light.a", entityName := "灯A", state := st, attributes := [] }

/-- Morning snapshot: light on, 20 °C, 50 % humidity. -/
def ctxA : ContextState :=
  { timestamp := "2026-01-01T08:00:00.000Z", devices := [devA "on"], presence := some true,
    timeOfDay := "morning", temperature := some 20, humidity := some 50 }

/-- Morning snapshot whose fingerprint is a valid JSON number. -/
def ctxB : ContextState :=
  { timestamp := "2026-01-01T08:00:00.000Z",
    devices := [{ entityId := "light.x", entityName := "灯X", state := "s97927", attributes := [] }],
    presence := some true, timeOfDay := "morning", temperature := some 20, humidity := some 50 }

/-- Morning snapshot like `ctxA` but with the light off. -/
def ctxC : ContextState := { ctxA with devices := [devA "off"] }

/-- A minimal snapshot used by a witness. -/
def ctxW : ContextState :=
  { timestamp := "", devices := [], presence := none, timeOfDay := "morning",
    temperature := none, humidity := none }

/-- A cacheable plan with no steps. -/
def planA : Plan :=
  { planId := "plan_1", intent := "sleep", steps := [], estimatedTime := some 1,
    confidence := 8/10, cacheable := true }

/-- A second cacheable plan. -/
def planB : Plan := { planA with planId := "plan_2" }

/-- A turn-on step for the sample light. -/
def stepQ : ActionStep :=
  { service := "light.turn_on", entityId := "light.a", targetName := "灯", description := "打开灯" }

/-- A one-step plan turning on the sample light. -/
def planQ : Plan := { planA with steps := [stepQ] }

/-- The cache key that `ctxA` derives for the sleep intent under the
context-aware strategy. -/
def keyA : String := "context:sleep:45b12af17f13bc47f334c6bde5d34532"

/-- The cache key that `ctxB` derives for the sleep intent under the
context-aware strategy. -/
def keyB : String := "context:sleep:85129365619727985551639596e85127"

/-- Cache holding the entry stored for `(sleepI, ctxA)`. -/
def cacheA : Cache := CacheService.store cfgCA 0 sleepI planA (some ctxA) []

/-- Cache holding the entries stored for `(sleepI, ctxA)` and
`(sleepI, ctxB)`, in that insertion order. -/
def cacheAB : Cache := CacheService.store cfgCA 0 sleepI planB (some ctxB) cacheA

/-- `cacheAB` after one failed execution report against `keyA`
(success rate 0.8). -/
def cacheAB1 : Cache := CacheService.updateSuccessRate keyA false cacheAB

/-- `cacheAB` after four failed execution reports against `keyA`: the
fourth drives the rate to 0.2 < 0.3 and deletes the entry. -/
def cacheAB4 : Cache :=
  CacheService.updateSuccessRate keyA false (CacheService.updateSuccessRate keyA false
    (CacheService.updateSuccessRate keyA false cacheAB1))

/-- Cache holding only the entry stored for `(sleepI, ctxB)`. -/
def cacheB : Cache := CacheService.store cfgCA 0 sleepI planB (some ctxB) []

/-- `cacheA` after one failed execution report against `keyA`
(success rate 0.8, no longer above the 0.8 fuzzy threshold). -/
def cacheA1 : Cache := CacheService.updateSuccessRate keyA false cacheA

/-- Morning snapshot with temperature 20.04 °C (rounds to 20.0). -/
def ctxTempLo : ContextState := { ctxA with temperature := some (20 + 4/100) }

/-- Morning snapshot with temperature 20.06 °C (rounds to 20.1). -/
def ctxTempHi : ContextState := { ctxA with temperature := some (20 + 6/100) }

/-- Snapshot with two device records sharing one entity id, on-record first. -/
def ctxDup1 : ContextState := { ctxA with devices := [devA "on", devA "off"] }

/-- The same two records in the opposite order. -/
def ctxDup2 : ContextState := { ctxA with devices := [devA "off", devA "on"] }

/-- A second light device for the permutation witness. -/
def devB : DeviceState :=
  { entityId := "light.b", entityName := "灯B", state := "off", attributes := [] }

/-- Snapshot with two distinct devices, `light.a` first. -/
def ctxPermA : ContextState :=
  { ctxA with temperature := some (20 + 4/100), devices := [devA "on", devB] }

/-- The same snapshot with the device records swapped. -/
def ctxPermB : ContextState :=
  { ctxA with temperature := some (20 + 4/100), devices := [devB, devA "on"] }

/-- A concrete cache entry under the simple key, used by witnesses. -/
def entryW : CacheEntry :=
  { cacheKey := "simple:sleep", intent := "sleep", plan := planA, contextHash := "simple",
    lastUsed := 0, usageCount := 1, successRate := 1 }

/-- A one-entry cache under the simple key. -/
def cacheW : Cache := [( "simple:sleep", entryW)]

/-- The cache produced by storing `planA` for the sleep intent with no
context under the simple strategy. -/
def cacheS : Cache := CacheService.store cfgS 0 sleepI planA none []

/-- `cacheS` after the cache-hit query of the pipeline run (usage counter
bumped, last-used refreshed). -/
def cacheS1 : Cache :=
  match CacheService.query cfgS 0 sleepI none cacheS with
  | .ok p => p.2
  | .error _ => cacheS

/-! ## Map lemmas -/

theorem mapGet_mapSet_self (c : Cache) (k : String) (v : CacheEntry) :
    mapGet (mapSet c k v) k = some v := by
  induction c with
  | nil => simp [mapSet, mapGet]
  | cons p rest ih =>
    obtain ⟨k', e⟩ := p
    by_cases h : k' = k
    · simp [mapSet, mapGet, h]
    · simp [mapSet, mapGet, h, ih]

theorem mem_of_mapGet_eq_some {c : Cache} {k : String} {e : CacheEntry}
    (h : mapGet c k = some e) : (k, e) ∈ c := by
  induction c with
  | nil => simp [mapGet] at h
  | cons p rest ih =>
    obtain ⟨k', e'⟩ := p
    by_cases hk : k' = k
    · subst hk
      simp [mapGet] at h
      subst h
      exact List.mem_cons_self _ _
    · simp [mapGet, hk] at h
      exact List.mem_cons_of_mem _ (ih h)

theorem isSome_mapGet_of_mem {c : Cache} {k : String} {e : CacheEntry}
    (h : (k, e) ∈ c) : (mapGet c k).isSome := by
  induction c with
  | nil => simp at h
  | cons p rest ih =>
    obtain ⟨k', e'⟩ := p
    rcases List.mem_cons.mp h with h1 | h1
    · cases h1
      simp [mapGet]
    · by_cases hk : k' = k
      · simp [mapGet, hk]
      · simp [mapGet, hk]
        exact ih h1

theorem mem_mapSet {c : Cache} {k : String} {v : CacheEntry} {p : String × CacheEntry}
    (h : p ∈ mapSet c k v) : p = (k, v) ∨ p ∈ c := by
  induction c with
  | nil =>
    simp only [mapSet, List.mem_singleton] at h
    exact Or.inl h
  | cons q rest ih =>
    obtain ⟨k', e'⟩ := q
    by_cases hk : k' = k
    · simp [mapSet, hk] at h
      rcases h with h1 | h1
      · exact Or.inl h1
      · exact Or.inr (List.mem_cons_of_mem _ h1)
    · simp [mapSet, hk] at h
      rcases h with h1 | h1
      · exact Or.inr (by simp [h1])
      · rcases ih h1 with h2 | h2
        · exact Or.inl h2
        · exact Or.inr (List.mem_cons_of_mem _ h2)

theorem mem_mapDelete {c : Cache} {k : String} {p : String × CacheEntry}
    (h : p ∈ mapDelete c k) : p ∈ c := by
  induction c with
  | nil => simp [mapDelete] at h
  | cons q rest ih =>
    obtain ⟨k', e'⟩ := q
    by_cases hk : k' = k
    · simp [mapDelete, hk] at h
      exact List.mem_cons_of_mem _ (ih h)
    · simp [mapDelete, hk] at h
      rcases h with h1 | h1
      · simp [h1]
      · exact List.mem_cons_of_mem _ (ih h1)

theorem length_mapSet_of_isSome {c : Cache} {k : String} (v : CacheEntry)
    (h : (mapGet c k).isSome) : (mapSet c k v).length = c.length := by
  induction c with
  | nil => simp [mapGet] at h
  | cons q rest ih =>
    obtain ⟨k', e'⟩ := q
    by_cases hk : k' = k
    · simp [mapSet, hk]
    · simp [mapGet, hk] at h
      simp [mapSet, hk, ih h]

theorem length_mapSet_le (c : Cache) (k : String) (v : CacheEntry) :
    (mapSet c k v).length ≤ c.length + 1 := by
  induction c with
  | nil => simp [mapSet]
  | cons q rest ih =>
    obtain ⟨k', e'⟩ := q
    by_cases hk : k' = k
    · simp [mapSet, hk]
    · simp only [mapSet, hk, if_false, List.length_cons]
      omega

theorem length_mapDelete_le (c : Cache) (k : String) :
    (mapDelete c k).length ≤ c.length := by
  induction c with
  | nil => simp [mapDelete]
  | cons q rest ih =>
    obtain ⟨k', e'⟩ := q
    by_cases hk : k' = k
    · simp only [mapDelete, hk, if_true, List.length_cons]
      omega
    · simp only [mapDelete, hk, if_false, List.length_cons]
      omega

theorem length_mapDelete_lt {c : Cache} {k : String}
    (h : (mapGet c k).isSome) : (mapDelete c k).length < c.length := by
  induction c with
  | nil => simp [mapGet] at h
  | cons q rest ih =>
    obtain ⟨k', e'⟩ := q
    by_cases hk : k' = k
    · simp only [mapDelete, hk, if_true, List.length_cons]
      exact Nat.lt_succ_of_le (length_mapDelete_le rest k)
    · simp [mapGet, hk] at h
      simp only [mapDelete, hk, if_false, List.length_cons]
      exact Nat.succ_lt_succ (ih h)

theorem mapDelete_of_mapGet_none {c : Cache} {k : String}
    (h : mapGet c k = none) : mapDelete c k = c := by
  induction c with
  | nil => simp [mapDelete]
  | cons q rest ih =>
    obtain ⟨k', e'⟩ := q
    by_cases hk : k' = k
    · simp [mapGet, hk] at h
    · simp [mapGet, hk] at h
      simp [mapDelete, hk, ih h]

/-! ## Fuzzy-scan lemmas -/

theorem fuzzyScan_mem {i : Intent} {tod : String} {c : Cache} {k : String} {e : CacheEntry}
    (h : CacheService.fuzzyScan i tod c = .ok (some (k, e))) : (k, e) ∈ c := by
  induction c with
  | nil => simp [CacheService.fuzzyScan] at h
  | cons q rest ih =>
    obtain ⟨k', e'⟩ := q
    simp only [CacheService.fuzzyScan] at h
    by_cases hi : e'.intent ≠ i.intent
    · rw [if_pos hi] at h
      exact List.mem_cons_of_mem _ (ih h)
    · rw [if_neg hi] at h
      by_cases hv : jsonValid e'.contextHash = false
      · rw [if_pos hv] at h
        exact absurd h (by simp)
      · rw [if_neg hv] at h
        by_cases ha : (jsIncludes k' tod || decide (e'.successRate > 8/10)) = true
        · rw [if_pos ha] at h
          simp only [Except.ok.injEq, Option.some.injEq, Prod.mk.injEq] at h
          simp [h.1, h.2]
        · rw [if_neg ha] at h
          exact List.mem_cons_of_mem _ (ih h)

theorem fuzzyScan_none_of_no_intent {i : Intent} {tod : String} {c : Cache}
    (h : ∀ p ∈ c, (p : String × CacheEntry).2.intent ≠ i.intent) :
    CacheService.fuzzyScan i tod c = .ok none := by
  induction c with
  | nil => simp [CacheService.fuzzyScan]
  | cons q rest ih =>
    obtain ⟨k', e'⟩ := q
    have h1 : e'.intent ≠ i.intent := h (k', e') (List.mem_cons_self _ _)
    simp only [CacheService.fuzzyScan]
    rw [if_pos h1]
    exact ih fun p hp => h p (List.mem_cons_of_mem _ hp)

theorem fuzzyScan_eq_fuzzySpecScan (i : Intent) (tod : String) (c : Cache) :
    CacheService.fuzzyScan i tod c =
      fuzzySpecScan tod (c.filter (fun p => p.2.intent == i.intent)) := by
  induction c with
  | nil => simp [CacheService.fuzzyScan, fuzzySpecScan]
  | cons q rest ih =>
    obtain ⟨k', e'⟩ := q
    simp only [CacheService.fuzzyScan]
    by_cases hi : e'.intent = i.intent
    · have hne : ¬ e'.intent ≠ i.intent := by simp [hi]
      rw [if_neg hne]
      have hf : (e'.intent == i.intent) = true := by simp [hi]
      simp only [List.filter_cons, hf, if_pos]
      simp only [fuzzySpecScan, fuzzyAccepts]
      rw [ih]
    · have hne : e'.intent ≠ i.intent := hi
      rw [if_pos hne]
      have hf : ¬ ((e'.intent == i.intent) = true) := by simp [hi]
      simp only [List.filter_cons, if_neg hf]
      exact ih

/-! ## Eviction lemmas -/

theorem evictFold_cases {now : ℚ} :
    ∀ (l : Cache) (acc : Option (String × ℚ)) {k : String} {s : ℚ},
      CacheService.evictFold now l acc = some (k, s) →
      (∃ e, (k, e) ∈ l) ∨ acc = some (k, s)
  | [], acc, k, s, h => Or.inr (by simpa [CacheService.evictFold] using h)
  | (k', e') :: rest, acc, k, s, h => by
    match acc with
    | none =>
      simp only [CacheService.evictFold] at h
      rcases evictFold_cases rest _ h with h1 | h1
      · obtain ⟨e, he⟩ := h1
        exact Or.inl ⟨e, List.mem_cons_of_mem _ he⟩
      · simp only [Option.some.injEq, Prod.mk.injEq] at h1
        exact Or.inl ⟨e', by simp [h1.1]⟩
    | some (k0, m) =>
      simp only [CacheService.evictFold] at h
      by_cases hlt : CacheService.evictScore now e' < m
      · rw [if_pos hlt] at h
        rcases evictFold_cases rest _ h with h1 | h1
        · obtain ⟨e, he⟩ := h1
          exact Or.inl ⟨e, List.mem_cons_of_mem _ he⟩
        · simp only [Option.some.injEq, Prod.mk.injEq] at h1
          exact Or.inl ⟨e', by simp [h1.1]⟩
      · rw [if_neg hlt] at h
        rcases evictFold_cases rest _ h with h1 | h1
        · obtain ⟨e, he⟩ := h1
          exact Or.inl ⟨e, List.mem_cons_of_mem _ he⟩
        · exact Or.inr h1

theorem evictFold_isSome {now : ℚ} :
    ∀ (l : Cache) (p : String × ℚ), (CacheService.evictFold now l (some p)).isSome
  | [], _ => by simp [CacheService.evictFold]
  | (k', e') :: rest, p => by
    obtain ⟨k0, m⟩ := p
    simp only [CacheService.evictFold]
    by_cases hlt : CacheService.evictScore now e' < m
    · rw [if_pos hlt]
      exact evictFold_isSome rest _
    · rw [if_neg hlt]
      exact evictFold_isSome rest _

theorem evictLeastUseful_length_lt {now : ℚ} {c : Cache} (h : c ≠ []) :
    (CacheService.evictLeastUseful now c).length < c.length := by
  match c, h with
  | (k', e') :: rest, _ =>
    simp only [CacheService.evictLeastUseful, List.isEmpty_cons, if_false]
    have hs : (CacheService.evictFold now ((k', e') :: rest) none).isSome := by
      simp only [CacheService.evictFold]
      exact evictFold_isSome rest _
    match hfold : CacheService.evictFold now ((k', e') :: rest) none with
    | none => rw [hfold] at hs; simp at hs
    | some (k, s) =>
      rcases evictFold_cases _ _ hfold with h1 | h1
      · obtain ⟨e, he⟩ := h1
        exact length_mapDelete_lt (isSome_mapGet_of_mem he)
      · simp at h1

theorem mem_evictLeastUseful {now : ℚ} {c : Cache} {p : String × CacheEntry}
    (h : p ∈ CacheService.evictLeastUseful now c) : p ∈ c := by
  unfold CacheService.evictLeastUseful at h
  by_cases he : c.isEmpty
  · rwa [if_pos he] at h
  · rw [if_neg he] at h
    match hfold : CacheService.evictFold now c none with
    | none => rwa [hfold] at h
    | some (k, s) =>
      rw [hfold] at h
      exact mem_mapDelete h

/-! ## Invariant preservation -/

theorem query_ok_cache_cases {cfg : CacheConfig} {now : ℚ} {i : Intent}
    {ctx : Option ContextState} {c : Cache} {r : QueryResult} {c' : Cache}
    (h : CacheService.query cfg now i ctx c = .ok (r, c')) :
    c' = c ∨ c' = mapDelete c (CacheService.generateCacheKey cfg i ctx) ∨
      ∃ k0 e, (k0, e) ∈ c ∧
        c' = mapSet c k0 { e with usageCount := e.usageCount + 1, lastUsed := now } := by
  unfold CacheService.query at h
  split at h
  · simp only [Except.ok.injEq, Prod.mk.injEq] at h
    exact Or.inl h.2.symm
  · dsimp only at h
    split at h
    · exact absurd h (by simp)
    · simp only [Except.ok.injEq, Prod.mk.injEq] at h
      exact Or.inl h.2.symm
    · rename_i k0 e heq
      split at h
      · simp only [Except.ok.injEq, Prod.mk.injEq] at h
        exact Or.inr (Or.inl h.2.symm)
      · simp only [Except.ok.injEq, Prod.mk.injEq] at h
        have hmem : (k0, e) ∈ c := by
          split at heq
          · rename_i e0 hget
            simp only [Except.ok.injEq, Option.some.injEq, Prod.mk.injEq] at heq
            rcases heq with ⟨hk, he⟩
            subst hk
            subst he
            exact mem_of_mapGet_eq_some hget
          · split at heq
            · split at heq
              · unfold CacheService.findFuzzyMatch at heq
                exact fuzzyScan_mem heq
              · exact absurd heq (by simp)
            · exact absurd heq (by simp)
        exact Or.inr (Or.inr ⟨k0, e, hmem, h.2.symm⟩)

theorem cacheOk_applyOp {cfg : CacheConfig} (hMax : 1 ≤ cfg.maxSize) {c : Cache}
    (h : cacheOk cfg c) (op : CacheOp) : cacheOk cfg (applyOp cfg c op) := by
  obtain ⟨hent, hlen⟩ := h
  cases op with
  | opQuery now i ctx =>
    simp only [applyOp]
    cases hq : CacheService.query cfg now i ctx c with
    | error msg => exact ⟨hent, hlen⟩
    | ok p =>
      obtain ⟨r, c'⟩ := p
      dsimp only
      rcases query_ok_cache_cases hq with h1 | h1 | ⟨k0, e, hmem, h1⟩
      · subst h1
        exact ⟨hent, hlen⟩
      · subst h1
        exact ⟨fun k e hke => hent k e (mem_mapDelete hke),
          le_trans (length_mapDelete_le _ _) hlen⟩
      · subst h1
        constructor
        · intro k e' hke
          rcases mem_mapSet hke with h2 | h2
          · have he := hent k0 e hmem
            cases h2
            exact ⟨he.1, he.2.1, he.2.2⟩
          · exact hent _ _ h2
        · rw [length_mapSet_of_isSome _ (isSome_mapGet_of_mem hmem)]
          exact hlen
  | opStore now i plan ctx =>
    simp only [applyOp]
    unfold CacheService.store
    split
    · exact ⟨hent, hlen⟩
    · rename_i hg
      push_neg at hg
      have hcb : plan.cacheable = true := by
        rcases Bool.eq_false_or_eq_true plan.cacheable with hb | hb
        · exact hb
        · exact absurd hb hg.2
      dsimp only
      by_cases hcap : c.length ≥ cfg.maxSize
      · rw [if_pos hcap]
        have hne : c ≠ [] := by
          intro hnil
          rw [hnil] at hcap
          simp at hcap
          omega
        have hlt := @evictLeastUseful_length_lt now _ hne
        constructor
        · intro k e hke
          rcases mem_mapSet hke with h2 | h2
          · cases h2
            exact ⟨by norm_num, by norm_num, hcb⟩
          · exact hent _ _ (mem_evictLeastUseful h2)
        · refine le_trans (length_mapSet_le _ _ _) ?_
          omega
      · rw [if_neg hcap]
        constructor
        · intro k e hke
          rcases mem_mapSet hke with h2 | h2
          · cases h2
            exact ⟨by norm_num, by norm_num, hcb⟩
          · exact hent _ _ h2
        · refine le_trans (length_mapSet_le _ _ _) ?_
          omega
  | opUpdate key success =>
    simp only [applyOp]
    unfold CacheService.updateSuccessRate
    cases hget : mapGet c key with
    | none => exact ⟨hent, hlen⟩
    | some e =>
      have hmem := mem_of_mapGet_eq_some hget
      have he := hent _ _ hmem
      dsimp only
      by_cases hs : success = true
      · rw [if_pos hs]
        split
        · exact ⟨fun k e' hke => hent k e' (mem_mapDelete hke),
            le_trans (length_mapDelete_le _ _) hlen⟩
        · constructor
          · intro k e' hke
            rcases mem_mapSet hke with h2 | h2
            · cases h2
              exact ⟨le_min (by norm_num) (by linarith [he.1]), min_le_left _ _, he.2.2⟩
            · exact hent _ _ h2
          · rw [length_mapSet_of_isSome _ (isSome_mapGet_of_mem hmem)]
            exact hlen
      · rw [if_neg hs]
        split
        · exact ⟨fun k e' hke => hent k e' (mem_mapDelete hke),
            le_trans (length_mapDelete_le _ _) hlen⟩
        · constructor
          · intro k e' hke
            rcases mem_mapSet hke with h2 | h2
            · cases h2
              exact ⟨le_max_left _ _, max_le (by norm_num) (by linarith [he.2.1]), he.2.2⟩
            · exact hent _ _ h2
          · rw [length_mapSet_of_isSome _ (isSome_mapGet_of_mem hmem)]
            exact hlen
  | opDelete key =>
    simp only [applyOp]
    exact ⟨fun k e hke => hent k e (mem_mapDelete hke), le_trans (length_mapDelete_le _ _) hlen⟩
  | opClear =>
    simp only [applyOp]
    exact ⟨by simp, by simp⟩

theorem cacheOk_foldl {cfg : CacheConfig} (hMax : 1 ≤ cfg.maxSize) :
    ∀ (ops : List CacheOp) {c : Cache}, cacheOk cfg c → cacheOk cfg (ops.foldl (applyOp cfg) c)
  | [], _, h => h
  | op :: rest, c, h => by
    simp only [List.foldl_cons]
    exact cacheOk_foldl hMax rest (cacheOk_applyOp hMax h op)

/-! ## Order lemmas for the device sort -/

theorem char_eq_of_toNat_eq {a b : Char} (h : a.toNat = b.toNat) : a = b :=
  Char.eq_of_val_eq (UInt32.eq_of_toBitVec_eq (BitVec.eq_of_toNat_eq h))

theorem string_eq_of_toList_eq {a b : String} (h : a.toList = b.toList) : a = b := by
  cases a
  cases b
  simp only [String.toList] at h
  rw [h]

theorem lexLe_total : ∀ a b : List Char, lexLe a b = true ∨ lexLe b a = true
  | [], _ => Or.inl rfl
  | _ :: _, [] => Or.inr rfl
  | a :: as, b :: bs => by
    simp only [lexLe]
    by_cases h1 : a.toNat < b.toNat
    · left
      rw [if_pos h1]
    · by_cases h2 : b.toNat < a.toNat
      · right
        rw [if_pos h2]
      · rw [if_neg h1, if_neg h2, if_neg h2, if_neg h1]
        exact lexLe_total as bs

theorem lexLe_antisymm : ∀ {a b : List Char}, lexLe a b = true → lexLe b a = true → a = b
  | [], [], _, _ => rfl
  | [], _ :: _, _, h2 => by simp [lexLe] at h2
  | _ :: _, [], h1, _ => by simp [lexLe] at h1
  | a :: as, b :: bs, h1, h2 => by
    simp only [lexLe] at h1 h2
    by_cases hab : a.toNat < b.toNat
    · have hba : ¬ b.toNat < a.toNat := by omega
      rw [if_neg hba, if_pos hab] at h2
      exact absurd h2 (by simp)
    · by_cases hba : b.toNat < a.toNat
      · rw [if_neg hab, if_pos hba] at h1
        exact absurd h1 (by simp)
      · rw [if_neg hab, if_neg hba] at h1
        rw [if_neg hba, if_neg hab] at h2
        have hc : a = b := char_eq_of_toNat_eq (by omega)
        rw [hc, lexLe_antisymm h1 h2]

theorem lexLe_trans : ∀ {a b c : List Char},
    lexLe a b = true → lexLe b c = true → lexLe a c = true
  | [], _, _, _, _ => rfl
  | _ :: _, [], _, h1, _ => by simp [lexLe] at h1
  | _ :: _, _ :: _, [], _, h2 => by simp [lexLe] at h2
  | a :: as, b :: bs, c :: cs, h1, h2 => by
    simp only [lexLe] at h1 h2 ⊢
    by_cases hab : a.toNat < b.toNat
    · by_cases hbc : b.toNat < c.toNat
      · rw [if_pos (by omega : a.toNat < c.toNat)]
      · by_cases hcb : c.toNat < b.toNat
        · rw [if_neg hbc, if_pos hcb] at h2
          exact absurd h2 (by simp)
        · rw [if_pos (by omega : a.toNat < c.toNat)]
    · by_cases hba : b.toNat < a.toNat
      · rw [if_neg hab, if_pos hba] at h1
        exact absurd h1 (by simp)
      · rw [if_neg hab, if_neg hba] at h1
        by_cases hbc : b.toNat < c.toNat
        · rw [if_pos (by omega : a.toNat < c.toNat)]
        · by_cases hcb : c.toNat < b.toNat
          · rw [if_neg hbc, if_pos hcb] at h2
            exact absurd h2 (by simp)
          · rw [if_neg hbc, if_neg hcb] at h2
            rw [if_neg (by omega : ¬ a.toNat < c.toNat), if_neg (by omega : ¬ c.toNat < a.toNat)]
            exact lexLe_trans h1 h2

theorem devLe_total (a b : NormDevice) : devLe a b = true ∨ devLe b a = true :=
  lexLe_total _ _

theorem devLe_trans {a b c : NormDevice} (h1 : devLe a b = true) (h2 : devLe b c = true) :
    devLe a c = true :=
  lexLe_trans h1 h2

theorem devLe_id_eq {a b : NormDevice} (h1 : devLe a b = true) (h2 : devLe b a = true) :
    a.id = b.id :=
  string_eq_of_toList_eq (lexLe_antisymm h1 h2)

theorem insertDev_perm (x : NormDevice) : ∀ l : List NormDevice, List.Perm (insertDev x l) (x :: l)
  | [] => List.Perm.refl _
  | y :: ys => by
    simp only [insertDev]
    by_cases h : devLe x y = true
    · rw [if_pos h]
    · rw [if_neg h]
      exact ((insertDev_perm x ys).cons y).trans (List.Perm.swap x y ys)

theorem sortDevs_perm : ∀ l : List NormDevice, List.Perm (sortDevs l) l
  | [] => List.Perm.refl _
  | x :: xs => (insertDev_perm x (sortDevs xs)).trans ((sortDevs_perm xs).cons x)

theorem insertDev_pairwise {x : NormDevice} :
    ∀ {l : List NormDevice}, l.Pairwise (fun a b => devLe a b = true) →
      (insertDev x l).Pairwise (fun a b => devLe a b = true)
  | [], _ => by simp [insertDev]
  | y :: ys, h => by
    rcases List.pairwise_cons.mp h with ⟨hy, hys⟩
    simp only [insertDev]
    by_cases hxy : devLe x y = true
    · rw [if_pos hxy]
      refine List.pairwise_cons.mpr ⟨?_, h⟩
      intro z hz
      rcases List.mem_cons.mp hz with h1 | h1
      · rw [h1]
        exact hxy
      · exact devLe_trans hxy (hy z h1)
    · rw [if_neg hxy]
      have hyx : devLe y x = true := (devLe_total x y).resolve_left hxy
      refine List.pairwise_cons.mpr ⟨?_, insertDev_pairwise hys⟩
      intro z hz
      have hz' : z ∈ x :: ys := (insertDev_perm x ys).mem_iff.mp hz
      rcases List.mem_cons.mp hz' with h1 | h1
      · rw [h1]
        exact hyx
      · exact hy z h1

theorem sortDevs_pairwise : ∀ l : List NormDevice,
    (sortDevs l).Pairwise (fun a b => devLe a b = true)
  | [] => by simp [sortDevs]
  | x :: xs => insertDev_pairwise (sortDevs_pairwise xs)

theorem sortDevs_eq_of_perm {l1 l2 : List NormDevice} (hp : List.Perm l1 l2)
    (hn : (l1.map NormDevice.id).Nodup) : sortDevs l1 = sortDevs l2 := by
  haveI hanti : IsAntisymm NormDevice (fun a b => devLe a b = true ∧ a.id ≠ b.id) := by
    constructor
    intro a b h1 h2
    exact absurd (devLe_id_eq h1.1 h2.1) h1.2
  have hsymm : ∀ {x y : NormDevice}, x.id ≠ y.id → y.id ≠ x.id :=
    fun h e => h e.symm
  have hn2 : (l2.map NormDevice.id).Nodup := ((hp.map NormDevice.id).nodup_iff).mp hn
  have hne1 : (sortDevs l1).Pairwise (fun a b => a.id ≠ b.id) :=
    ((sortDevs_perm l1).pairwise_iff hsymm).mpr (List.pairwise_map.mp hn)
  have hne2 : (sortDevs l2).Pairwise (fun a b => a.id ≠ b.id) :=
    ((sortDevs_perm l2).pairwise_iff hsymm).mpr (List.pairwise_map.mp hn2)
  have hperm : List.Perm (sortDevs l1) (sortDevs l2) :=
    (sortDevs_perm l1).trans (hp.trans (sortDevs_perm l2).symm)
  exact List.eq_of_perm_of_sorted hperm
    ((sortDevs_pairwise l1).and hne1) ((sortDevs_pairwise l2).and hne2)

/-! ## Refinement lemmas -/

theorem prepend_ne (pre d : String) (h : 0 < pre.length) : pre ++ d ≠ d := by
  intro he
  have hl := congrArg String.length he
  rw [String.length_append] at hl
  omega

theorem wrap_ne (pre d suf : String) (h : 0 < pre.length) : pre ++ d ++ suf ≠ d := by
  intro he
  have hl := congrArg String.length he
  rw [String.length_append, String.length_append] at hl
  omega

theorem refineStep_fields (c : ContextState) (s : ActionStep) :
    (PlannerAgent.refineStep c s).service = s.service ∧
    (PlannerAgent.refineStep c s).entityId = s.entityId ∧
    (PlannerAgent.refineStep c s).targetName = s.targetName := by
  unfold PlannerAgent.refineStep
  split
  · split
    · exact ⟨rfl, rfl, rfl⟩
    · split
      · exact ⟨rfl, rfl, rfl⟩
      · exact ⟨rfl, rfl, rfl⟩
  · exact ⟨rfl, rfl, rfl⟩

theorem refineStep_of_find_none {c : ContextState} {s : ActionStep}
    (hf : c.devices.find? (fun d => d.entityId == s.entityId) = none) :
    PlannerAgent.refineStep c s =
      { s with description := "[警告:设备不存在] " ++ s.description } := by
  unfold PlannerAgent.refineStep
  rw [hf]

theorem refineStep_of_find_some {c : ContextState} {s : ActionStep} {d : DeviceState}
    (hf : c.devices.find? (fun dd => dd.entityId == s.entityId) = some d) :
    PlannerAgent.refineStep c s =
      (if jsIncludes s.service "turn_on" && (d.state == "on") then
        { s with description := "[已开启] " ++ s.description ++ " (跳过)" }
      else if jsIncludes s.service "turn_off" && (d.state == "off") then
        { s with description := "[已关闭] " ++ s.description ++ " (跳过)" }
      else s) := by
  unfold PlannerAgent.refineStep
  rw [hf]

theorem refineStep_iter (c : ContextState) (s : ActionStep) :
    PlannerAgent.refineStep c (PlannerAgent.refineStep c s) = PlannerAgent.refineStep c s ↔
      PlannerAgent.refineStep c s = s := by
  have hfields := refineStep_fields c s
  cases hf : c.devices.find? (fun d => d.entityId == s.entityId) with
  | none =>
    have h1 := refineStep_of_find_none hf
    have hf2 : c.devices.find? (fun d => d.entityId == (PlannerAgent.refineStep c s).entityId) =
        (none : Option DeviceState) := by
      rw [hfields.2.1]
      exact hf
    have h2 := refineStep_of_find_none hf2
    refine iff_of_false ?_ ?_
    · intro h
      rw [h2] at h
      have hd := congrArg ActionStep.description h
      exact prepend_ne _ _ (by decide) hd
    · intro h
      rw [h1] at h
      have hd := congrArg ActionStep.description h
      exact prepend_ne _ _ (by decide) hd
  | some d =>
    have h1 := refineStep_of_find_some hf
    have hf2 : c.devices.find? (fun dd => dd.entityId == (PlannerAgent.refineStep c s).entityId) =
        some d := by
      rw [hfields.2.1]
      exact hf
    have h2 := refineStep_of_find_some hf2
    by_cases b1 : (jsIncludes s.service "turn_on" && (d.state == "on")) = true
    · rw [if_pos b1] at h1
      have b1' : (jsIncludes (PlannerAgent.refineStep c s).service "turn_on" &&
          (d.state == "on")) = true := by
        rw [hfields.1]
        exact b1
      rw [if_pos b1'] at h2
      refine iff_of_false ?_ ?_
      · intro h
        rw [h2] at h
        have hd := congrArg ActionStep.description h
        exact wrap_ne _ _ _ (by decide) hd
      · intro h
        rw [h1] at h
        have hd := congrArg ActionStep.description h
        exact wrap_ne _ _ _ (by decide) hd
    · rw [if_neg b1] at h1
      have b1' : ¬ (jsIncludes (PlannerAgent.refineStep c s).service "turn_on" &&
          (d.state == "on")) = true := by
        rw [hfields.1]
        exact b1
      by_cases b2 : (jsIncludes s.service "turn_off" && (d.state == "off")) = true
      · rw [if_pos b2] at h1
        have b2' : (jsIncludes (PlannerAgent.refineStep c s).service "turn_off" &&
            (d.state == "off")) = true := by
          rw [hfields.1]
          exact b2
        rw [if_neg b1', if_pos b2'] at h2
        refine iff_of_false ?_ ?_
        · intro h
          rw [h2] at h
          have hd := congrArg ActionStep.description h
          exact wrap_ne _ _ _ (by decide) hd
        · intro h
          rw [h1] at h
          have hd := congrArg ActionStep.description h
          exact wrap_ne _ _ _ (by decide) hd
      · rw [if_neg b2] at h1
        have b2' : ¬ (jsIncludes (PlannerAgent.refineStep c s).service "turn_off" &&
            (d.state == "off")) = true := by
          rw [hfields.1]
          exact b2
        rw [if_neg b1', if_neg b2'] at h2
        exact iff_of_true h2 h1

theorem mapRefine_iter (c : ContextState) :
    ∀ steps : List ActionStep,
      (steps.map (PlannerAgent.refineStep c)).map (PlannerAgent.refineStep c) =
        steps.map (PlannerAgent.refineStep c) ↔
      steps.map (PlannerAgent.refineStep c) = steps
  | [] => by simp
  | s :: rest => by
    simp only [List.map_cons, List.cons.injEq]
    exact and_congr (refineStep_iter c s) (mapRefine_iter c rest)

/-! ## Feedback and miss lemmas -/

theorem updateSuccessRate_of_mapGet_none {c : Cache} {k : String} (b : Bool)
    (h : mapGet c k = none) : CacheService.updateSuccessRate k b c = c := by
  unfold CacheService.updateSuccessRate
  rw [h]

theorem query_miss_of_absent {cfg : CacheConfig} {now : ℚ} {i : Intent}
    {ctx : Option ContextState} {cache : Cache}
    (hk : mapGet cache (CacheService.generateCacheKey cfg i ctx) = none)
    (hint : ∀ p ∈ cache, (p : String × CacheEntry).2.intent ≠ i.intent) :
    ∃ r, CacheService.query cfg now i ctx cache =
      .ok ({ hit := false, entry := none, reason := r }, cache) := by
  by_cases hN : cfg.strategy = CacheStrategy.NONE
  · refine ⟨some "缓存未启用", ?_⟩
    unfold CacheService.query
    rw [if_pos hN]
  · refine ⟨some "未找到匹配缓存", ?_⟩
    unfold CacheService.query
    rw [if_neg hN]
    dsimp only
    rw [hk]
    match ctx with
    | none => rfl
    | some cc =>
      by_cases hCA : cfg.strategy = CacheStrategy.CONTEXT_AWARE
      · have hfz : CacheService.findFuzzyMatch i cc cache = .ok none := by
          unfold CacheService.findFuzzyMatch
          exact fuzzyScan_none_of_no_intent hint
        simp only [hCA, eq_self_iff_true, if_true, hfz]
      · simp only
        rw [if_neg hCA]

theorem mapGet_mapDelete_self (c : Cache) (k : String) : mapGet (mapDelete c k) k = none := by
  induction c with
  | nil => simp [mapDelete, mapGet]
  | cons q rest ih =>
    obtain ⟨k', e'⟩ := q
    by_cases hk : k' = k
    · simp [mapDelete, hk, ih]
    · simp [mapDelete, mapGet, hk, ih]

/-! ## Claim theorems -/

/-- C9: for every plan and snapshot, the refined plan returned by
`validateAndRefinePlan` has exactly as many steps as the input plan, in the
same order, and each refined step keeps the `service`, `entityId` and
`targetName` of the corresponding input step unchanged — only the
`description` field may differ. -/
theorem C9_refine_frame (plan : Plan) (c : ContextState) :
    (PlannerAgent.validateAndRefinePlan plan c).steps.length = plan.steps.length ∧
    List.Forall₂
      (fun s t => t.service = s.service ∧ t.entityId = s.entityId ∧ t.targetName = s.targetName)
      plan.steps (PlannerAgent.validateAndRefinePlan plan c).steps := by
  unfold PlannerAgent.validateAndRefinePlan
  refine ⟨by simp, ?_⟩
  dsimp only
  induction plan.steps with
  | nil => exact List.Forall₂.nil
  | cons s rest ih =>
    simp only [List.map_cons]
    exact List.Forall₂.cons (refineStep_fields c s) ih

/-- C10 counterexample: refinement is not idempotent. Refining the
one-step plan `planQ` (turn on `light.a`) against the snapshot `ctxA`
(light already on) marks the step skipped; refining the refined plan a
second time against the same snapshot prepends the skip marker again, so
the descriptions change further. -/
theorem C10_counterexample :
    PlannerAgent.validateAndRefinePlan (PlannerAgent.validateAndRefinePlan planQ ctxA) ctxA ≠
      PlannerAgent.validateAndRefinePlan planQ ctxA ∧
    (PlannerAgent.validateAndRefinePlan planQ ctxA).steps.map ActionStep.description =
      [ "[已开启] 打开灯 (跳过)"] ∧
    (PlannerAgent.validateAndRefinePlan
        (PlannerAgent.validateAndRefinePlan planQ ctxA) ctxA).steps.map ActionStep.description =
      [ "[已开启] [已开启] 打开灯 (跳过) (跳过)"] := by
  refine ⟨?_, ?_, ?_⟩ <;> decide

/-- C10 (amended): a second refinement against the same snapshot produces
identical step descriptions precisely when the first refinement already
changed nothing; every step the first pass annotated is re-annotated by the
second pass, so refinement is idempotent exactly on plans it leaves
unannotated. -/
theorem C10_amended_idempotent_iff (plan : Plan) (c : ContextState) :
    PlannerAgent.validateAndRefinePlan (PlannerAgent.validateAndRefinePlan plan c) c =
      PlannerAgent.validateAndRefinePlan plan c ↔
    PlannerAgent.validateAndRefinePlan plan c = plan := by
  unfold PlannerAgent.validateAndRefinePlan
  dsimp only
  constructor
  · intro h
    have h2 : (plan.steps.map (PlannerAgent.refineStep c)).map (PlannerAgent.refineStep c) =
        plan.steps.map (PlannerAgent.refineStep c) := congrArg Plan.steps h
    have h3 := (mapRefine_iter c plan.steps).mp h2
    rw [h3]
  · intro h
    have h2 : plan.steps.map (PlannerAgent.refineStep c) = plan.steps := congrArg Plan.steps h
    simp only [h2]

/-- C1: the execution-outcome feedback of `processUserIntent` does not in
fact update the entry that supplied the plan. In a simple-strategy run the
plan `planA` (id `"plan_1"`) is stored under the key `"simple:sleep"` and
queried back as a cache hit; the orchestrator then reports a failed
execution by calling `updateSuccessRate(plan.planId, false)` — but
`"plan_1"` is not a cache key, so the cache is left unchanged and the
entry's success rate stays 1.0, while a call with the entry's actual cache
key would have lowered it to 0.8. -/
theorem C1_feedback_noop :
    (CacheService.query cfgS 0 sleepI none cacheS).map (fun p => p.1.hit) = .ok true ∧
    Orchestrator.reportOutcome true planA "failed" cacheS1 = cacheS1 ∧
    (mapGet cacheS1 "simple:sleep").map CacheEntry.successRate = some 1 ∧
    (mapGet (CacheService.updateSuccessRate "simple:sleep" false cacheS1)
        "simple:sleep").map CacheEntry.successRate = some (4/5) := by
  refine ⟨?_, ?_, ?_, ?_⟩ <;> decide

/-- C7 counterexample: with a configured capacity of 0 the cache does
exceed its capacity — a single store into the empty cache leaves one entry,
because `store` evicts at most one entry before inserting and always
inserts. -/
theorem C7_counterexample :
    cfgZero.maxSize = 0 ∧
    (runOps cfgZero [CacheOp.opStore 0 sleepI planA none]).length = 1 := by
  refine ⟨rfl, ?_⟩
  decide

/-- C7 (amended): after every sequence of cache operations run from the
empty cache — with nondecreasing operation timestamps and a configured
capacity of at least 1 — every stored entry's success rate lies in [0, 1],
every plan referenced by a stored entry is cacheable, and the number of
stored entries never exceeds the configured capacity. -/
theorem C7_amended_invariant (cfg : CacheConfig) (t0 : ℚ) (ops : List CacheOp)
    (hMax : 1 ≤ cfg.maxSize) (_hMono : timeMonoB t0 ops = true) :
    (∀ k e, (k, e) ∈ runOps cfg ops →
        0 ≤ e.successRate ∧ e.successRate ≤ 1 ∧ e.plan.cacheable = true) ∧
    (runOps cfg ops).length ≤ cfg.maxSize := by
  have hstart : cacheOk cfg [] := by
    refine ⟨?_, ?_⟩
    · intro k e h
      simp at h
    · simp
  exact cacheOk_foldl hMax ops hstart

/-- C7 witness: the amended invariant instantiated on a one-store trace
under the simple strategy. -/
theorem C7_amended_invariant_witness :
    (1 ≤ cfgS.maxSize ∧ timeMonoB 0 [CacheOp.opStore 0 sleepI planA none] = true) ∧
    ((∀ k e, (k, e) ∈ runOps cfgS [CacheOp.opStore 0 sleepI planA none] →
        0 ≤ e.successRate ∧ e.successRate ≤ 1 ∧ e.plan.cacheable = true) ∧
      (runOps cfgS [CacheOp.opStore 0 sleepI planA none]).length ≤ cfgS.maxSize) :=
  ⟨⟨by decide, by decide⟩,
    C7_amended_invariant cfgS 0 [CacheOp.opStore 0 sleepI planA none] (by decide) (by decide)⟩

/-- C4 counterexample: store-then-query with identical arguments does not
always hit. Under the disabled strategy both calls are no-ops and the
query misses; and with a negative ttl the freshly stored entry is already
expired at the same instant, so the query misses as well — in both runs
the plan was cacheable and capacity was never exceeded. -/
theorem C4_counterexample :
    planA.cacheable = true ∧
    (CacheService.query cfgN 0 sleepI (some ctxA)
        (CacheService.store cfgN 0 sleepI planA (some ctxA) [])).map (fun p => p.1.hit) =
      .ok false ∧
    (CacheService.query cfgNegTtl 0 sleepI (some ctxA)
        (CacheService.store cfgNegTtl 0 sleepI planA (some ctxA) [])).map (fun p => p.1.hit) =
      .ok false := by
  refine ⟨rfl, ?_, ?_⟩ <;> decide

/-- C4 (amended): for every configuration whose strategy is not disabled
and whose ttl is nonnegative, every intent, snapshot and cacheable plan,
and every starting cache, `store` followed immediately by `query` with the
identical arguments reports a hit. -/
theorem C4_store_then_query_hits (cfg : CacheConfig) (now : ℚ) (i : Intent) (plan : Plan)
    (ctx : Option ContextState) (cache : Cache)
    (hS : cfg.strategy ≠ CacheStrategy.NONE) (hC : plan.cacheable = true) (hT : 0 ≤ cfg.ttl) :
    (CacheService.query cfg now i ctx (CacheService.store cfg now i plan ctx cache)).map
      (fun p => p.1.hit) = .ok true := by
  have hexp : ∀ e : CacheEntry, e.lastUsed = now → CacheService.isExpired cfg now e = false := by
    intro e he
    unfold CacheService.isExpired
    rw [he]
    simp only [decide_eq_false_iff_not, not_lt, sub_self]
    positivity
  unfold CacheService.store
  rw [if_neg (by simp [hS, hC])]
  dsimp only
  unfold CacheService.query
  rw [if_neg hS]
  dsimp only
  simp only [mapGet_mapSet_self, hexp, Bool.false_eq_true, if_false, Except.map]

/-- C4 witness: the amended round-trip property instantiated on the simple
strategy at time 0. -/
theorem C4_store_then_query_hits_witness :
    (cfgS.strategy ≠ CacheStrategy.NONE ∧ planA.cacheable = true ∧ (0 : ℚ) ≤ cfgS.ttl) ∧
    (CacheService.query cfgS 0 sleepI none (CacheService.store cfgS 0 sleepI planA none [])).map
      (fun p => p.1.hit) = .ok true :=
  ⟨⟨by decide, rfl, by decide⟩,
    C4_store_then_query_hits cfgS 0 sleepI planA none [] (by decide) rfl (by decide)⟩

/-- C5 counterexample: two snapshots whose temperatures differ by 0.02
(well within 0.05) round to different tenths (20.04 → 20.0 but
20.06 → 20.1) and get different fingerprints; and two snapshots that
differ only in the order of two device records sharing one entity id also
get different fingerprints, because the stable sort preserves the input
order of equal keys. -/
theorem C5_counterexample :
    ((20 + 6/100 : ℚ) - (20 + 4/100) ≤ 5/100 ∧ (20 + 4/100 : ℚ) - (20 + 6/100) ≤ 5/100) ∧
    CacheService.computeContextHash ctxTempLo ≠ CacheService.computeContextHash ctxTempHi ∧
    List.Perm ctxDup1.devices ctxDup2.devices ∧
    CacheService.computeContextHash ctxDup1 ≠ CacheService.computeContextHash ctxDup2 := by
  refine ⟨⟨?_, ?_⟩, ?_, ?_, ?_⟩ <;> decide

/-- C5 (amended): two snapshots that agree on the time-of-day bucket and
presence flag, whose temperatures and humidities round to the same tenth,
and whose device lists are permutations of each other with pairwise
distinct entity ids, receive the same context fingerprint under the
context-aware strategy. -/
theorem C5_amended_fingerprint_stable (c1 c2 : ContextState)
    (htod : c1.timeOfDay = c2.timeOfDay) (hp : c1.presence = c2.presence)
    (ht : roundTenth (c1.temperature.getD 0) = roundTenth (c2.temperature.getD 0))
    (hh : roundTenth (c1.humidity.getD 0) = roundTenth (c2.humidity.getD 0))
    (hdev : List.Perm c1.devices c2.devices)
    (hnodup : (c1.devices.map DeviceState.entityId).Nodup) :
    CacheService.computeContextHash c1 = CacheService.computeContextHash c2 := by
  unfold CacheService.computeContextHash
  congr 1
  unfold normalizeContext
  have hdev2 :
      sortDevs (c1.devices.map (fun d => ⟨d.entityId, d.state⟩)) =
        sortDevs (c2.devices.map (fun d => ⟨d.entityId, d.state⟩)) := by
    apply sortDevs_eq_of_perm (hdev.map _)
    rw [List.map_map]
    exact hnodup
  rw [htod, hp, ht, hh, hdev2]

/-- C5 witness: the amended stability property instantiated on two
snapshots with the two device records swapped. -/
theorem C5_amended_fingerprint_stable_witness :
    (ctxPermA.timeOfDay = ctxPermB.timeOfDay ∧ ctxPermA.presence = ctxPermB.presence ∧
      List.Perm ctxPermA.devices ctxPermB.devices ∧
      (ctxPermA.devices.map DeviceState.entityId).Nodup) ∧
    CacheService.computeContextHash ctxPermA = CacheService.computeContextHash ctxPermB :=
  ⟨⟨rfl, rfl, List.Perm.swap _ _ _, by decide⟩,
    C5_amended_fingerprint_stable ctxPermA ctxPermB rfl rfl rfl rfl
      (List.Perm.swap _ _ _) (by decide)⟩

/-- C3: `query` is not total — it throws. `cacheA` holds a same-intent
entry whose stored `contextHash` is the MD5 digest
`"45b12af17f13bc47f334c6bde5d34532"`, which is not valid JSON; a
context-aware query for the same intent under a different snapshot misses
the exact key, enters the fuzzy scan, and `JSON.parse(entry.contextHash)`
throws before any match condition is tested. -/
theorem C3_query_throws :
    (mapGet cacheA keyA).map CacheEntry.intent = some "sleep" ∧
    (mapGet cacheA keyA).map CacheEntry.contextHash =
      some "45b12af17f13bc47f334c6bde5d34532" ∧
    CacheService.query cfgCA 0 sleepI (some ctxC) cacheA = .error "Unexpected token in JSON" := by
  refine ⟨?_, ?_, ?_⟩ <;> decide

/-- C2 counterexample: the fuzzy step does not accept an entry stored
under the same time-of-day bucket. The entry in `cacheA1` was stored under
a morning snapshot and has success rate 0.8 (not above 0.8); a morning
query with a different snapshot should, per the claim, hit this entry —
instead the fuzzy scan throws on `JSON.parse` of its stored digest. (The
cache key holds a hex digest, not the bucket name, so
`key.includes(timeOfDay)` cannot see the bucket.) -/
theorem C2_counterexample :
    ctxC.timeOfDay = ctxA.timeOfDay ∧
    (mapGet cacheA1 keyA).map CacheEntry.successRate = some (4/5) ∧
    CacheService.query cfgCA 0 sleepI (some ctxC) cacheA1 = .error "Unexpected token in JSON" := by
  refine ⟨rfl, ?_, ?_⟩ <;> decide

/-- C2 (amended): under the context-aware strategy, on an exact-key miss
the fuzzy step scans the entries whose intent label matches, in insertion
order; each candidate's stored fingerprint is first run through
`JSON.parse`, and a parse failure aborts the whole query with an
exception; otherwise the first candidate whose full cache key contains the
queried time-of-day bucket as a substring, or whose success rate exceeds
0.8, is accepted; if no candidate qualifies, the query reports a miss. -/
theorem C2_amended_fuzzy (cfg : CacheConfig) (now : ℚ) (i : Intent) (c : ContextState)
    (cache : Cache) (hS : cfg.strategy = CacheStrategy.CONTEXT_AWARE) :
    CacheService.findFuzzyMatch i c cache = fuzzySpec i c cache ∧
    (mapGet cache (CacheService.generateCacheKey cfg i (some c)) = none →
      fuzzySpec i c cache = .ok none →
      CacheService.query cfg now i (some c) cache =
        .ok ({ hit := false, entry := none, reason := some "未找到匹配缓存" }, cache)) := by
  have h1 : CacheService.findFuzzyMatch i c cache = fuzzySpec i c cache := by
    unfold CacheService.findFuzzyMatch fuzzySpec
    exact fuzzyScan_eq_fuzzySpecScan i c.timeOfDay cache
  refine ⟨h1, fun hk hnone => ?_⟩
  have hfz : CacheService.findFuzzyMatch i c cache = .ok none := h1.trans hnone
  unfold CacheService.query
  rw [if_neg (by simp [hS])]
  dsimp only
  simp only [hk, hS, eq_self_iff_true, if_true, hfz]

/-- C2 witness: the amended fuzzy contract instantiated on the empty cache
and a minimal morning snapshot. -/
theorem C2_amended_fuzzy_witness :
    cfgCA.strategy = CacheStrategy.CONTEXT_AWARE ∧
    (CacheService.findFuzzyMatch sleepI ctxW [] = fuzzySpec sleepI ctxW [] ∧
      (mapGet [] (CacheService.generateCacheKey cfgCA sleepI (some ctxW)) = none →
        fuzzySpec sleepI ctxW [] = .ok none →
        CacheService.query cfgCA 0 sleepI (some ctxW) [] =
          .ok ({ hit := false, entry := none, reason := some "未找到匹配缓存" }, []))) :=
  ⟨rfl, C2_amended_fuzzy cfgCA 0 sleepI ctxW [] rfl⟩

/-- C6 (amended): for an entry present at key `k` with rate `r`,
`updateSuccessRate(k, true)` sets the rate to `min(1, r + 0.1)` and
`updateSuccessRate(k, false)` to `max(0, r − 0.2)`, deleting the entry
immediately when the resulting rate is below 0.3; after such a deletion a
query deriving that exact key no longer finds an entry by exact lookup,
and reports a miss provided the fuzzy-match step supplies no alternative
entry (in particular when no remaining entry carries the queried intent
label). -/
theorem C6_amended_update (cache : Cache) (k : String) (e : CacheEntry)
    (h : mapGet cache k = some e) :
    (CacheService.updateSuccessRate k true cache =
      if min 1 (e.successRate + 1/10) < 3/10 then mapDelete cache k
      else mapSet cache k { e with successRate := min 1 (e.successRate + 1/10) }) ∧
    (CacheService.updateSuccessRate k false cache =
      if max 0 (e.successRate - 1/5) < 3/10 then mapDelete cache k
      else mapSet cache k { e with successRate := max 0 (e.successRate - 1/5) }) ∧
    (max 0 (e.successRate - 1/5) < 3/10 →
      mapGet (CacheService.updateSuccessRate k false cache) k = none ∧
      ∀ cfg now i ctx, CacheService.generateCacheKey cfg i ctx = k →
        (∀ p ∈ CacheService.updateSuccessRate k false cache,
          (p : String × CacheEntry).2.intent ≠ i.intent) →
        ∃ r, CacheService.query cfg now i ctx (CacheService.updateSuccessRate k false cache) =
          .ok ({ hit := false, entry := none, reason := r },
            CacheService.updateSuccessRate k false cache)) := by
  have hTrue : CacheService.updateSuccessRate k true cache =
      if min 1 (e.successRate + 1/10) < 3/10 then mapDelete cache k
      else mapSet cache k { e with successRate := min 1 (e.successRate + 1/10) } := by
    unfold CacheService.updateSuccessRate
    rw [h]
    rfl
  have hFalse : CacheService.updateSuccessRate k false cache =
      if max 0 (e.successRate - 1/5) < 3/10 then mapDelete cache k
      else mapSet cache k { e with successRate := max 0 (e.successRate - 1/5) } := by
    unfold CacheService.updateSuccessRate
    rw [h]
    rfl
  refine ⟨hTrue, hFalse, fun hlow => ?_⟩
  have hdel : CacheService.updateSuccessRate k false cache = mapDelete cache k := by
    rw [hFalse, if_pos hlow]
  refine ⟨by rw [hdel]; exact mapGet_mapDelete_self cache k, ?_⟩
  intro cfg now i ctx hkey hint
  have hk2 : mapGet (CacheService.updateSuccessRate k false cache)
      (CacheService.generateCacheKey cfg i ctx) = none := by
    rw [hkey, hdel]
    exact mapGet_mapDelete_self cache k
  exact query_miss_of_absent hk2 hint

/-- C6 witness: the amended update semantics instantiated on a one-entry
cache under the simple key. -/
theorem C6_amended_update_witness :
    mapGet cacheW "simple:sleep" = some entryW ∧
    ((CacheService.updateSuccessRate "simple:sleep" true cacheW =
      if min 1 (entryW.successRate + 1/10) < 3/10 then mapDelete cacheW "simple:sleep"
      else mapSet cacheW "simple:sleep"
        { entryW with successRate := min 1 (entryW.successRate + 1/10) }) ∧
    (CacheService.updateSuccessRate "simple:sleep" false cacheW =
      if max 0 (entryW.successRate - 1/5) < 3/10 then mapDelete cacheW "simple:sleep"
      else mapSet cacheW "simple:sleep"
        { entryW with successRate := max 0 (entryW.successRate - 1/5) }) ∧
    (max 0 (entryW.successRate - 1/5) < 3/10 →
      mapGet (CacheService.updateSuccessRate "simple:sleep" false cacheW) "simple:sleep" = none ∧
      ∀ cfg now i ctx, CacheService.generateCacheKey cfg i ctx = "simple:sleep" →
        (∀ p ∈ CacheService.updateSuccessRate "simple:sleep" false cacheW,
          (p : String × CacheEntry).2.intent ≠ i.intent) →
        ∃ r, CacheService.query cfg now i ctx
            (CacheService.updateSuccessRate "simple:sleep" false cacheW) =
          .ok ({ hit := false, entry := none, reason := r },
            CacheService.updateSuccessRate "simple:sleep" false cacheW))) :=
  ⟨rfl, C6_amended_update cacheW "simple:sleep" entryW rfl⟩

/-- C6 counterexample: after `updateSuccessRate` drives the entry at
`keyA` below 0.3 (so it is deleted), a query deriving exactly `keyA`
still reports a hit, because the fuzzy step supplies the other same-intent
entry (stored under `keyB`, rate 1.0 > 0.8, digest parseable as a JSON
number). -/
theorem C6_counterexample :
    mapGet cacheAB4 keyA = none ∧
    (CacheService.query cfgCA 0 sleepI (some ctxA) cacheAB4).map (fun p => p.1.hit) =
      .ok true := by
  refine ⟨?_, ?_⟩ <;> decide

/-- C8 (amended): for a query that finds a candidate entry, expiry is
handled as follows. An exact-key candidate that is expired is deleted (the
derived key is removed) and the query misses with reason "expired"; a
fuzzy-matched candidate stored under a different key is NOT removed when
expired — the delete targets the derived exact key, which is absent — and
the query misses with the cache unchanged. A non-expired candidate (exact
or fuzzy) has its usage counter incremented and its last-used timestamp
refreshed, and a hit is reported. -/
theorem C8_amended_query_expiry (cfg : CacheConfig) (now : ℚ) (i : Intent)
    (ctx : Option ContextState) (cache : Cache) (hS : cfg.strategy ≠ CacheStrategy.NONE) :
    (∀ e, mapGet cache (CacheService.generateCacheKey cfg i ctx) = some e →
      (CacheService.isExpired cfg now e = true →
        CacheService.query cfg now i ctx cache =
          .ok ({ hit := false, entry := none, reason := some "缓存已过期" },
            mapDelete cache (CacheService.generateCacheKey cfg i ctx))) ∧
      (CacheService.isExpired cfg now e = false →
        CacheService.query cfg now i ctx cache =
          .ok ({ hit := true,
                 entry := some { e with usageCount := e.usageCount + 1, lastUsed := now },
                 reason := none },
            mapSet cache (CacheService.generateCacheKey cfg i ctx)
              { e with usageCount := e.usageCount + 1, lastUsed := now }))) ∧
    (∀ c0 k0 e, ctx = some c0 →
      mapGet cache (CacheService.generateCacheKey cfg i ctx) = none →
      cfg.strategy = CacheStrategy.CONTEXT_AWARE →
      CacheService.findFuzzyMatch i c0 cache = .ok (some (k0, e)) →
      (k0, e) ∈ cache ∧
      (CacheService.isExpired cfg now e = true →
        CacheService.query cfg now i ctx cache =
          .ok ({ hit := false, entry := none, reason := some "缓存已过期" }, cache)) ∧
      (CacheService.isExpired cfg now e = false →
        CacheService.query cfg now i ctx cache =
          .ok ({ hit := true,
                 entry := some { e with usageCount := e.usageCount + 1, lastUsed := now },
                 reason := none },
            mapSet cache k0 { e with usageCount := e.usageCount + 1, lastUsed := now }))) := by
  constructor
  · intro e hget
    constructor
    · intro hexp
      unfold CacheService.query
      rw [if_neg hS]
      dsimp only
      simp only [hget, hexp, eq_self_iff_true, if_true]
    · intro hexp
      unfold CacheService.query
      rw [if_neg hS]
      dsimp only
      simp only [hget, hexp, Bool.false_eq_true, if_false]
  · intro c0 k0 e hctx hk hCA hfz
    subst hctx
    refine ⟨fuzzyScan_mem hfz, ?_, ?_⟩
    · intro hexp
      unfold CacheService.query
      rw [if_neg hS]
      dsimp only
      simp only [hk, hCA, eq_self_iff_true, if_true, hfz, hexp,
        mapDelete_of_mapGet_none hk]
    · intro hexp
      unfold CacheService.query
      rw [if_neg hS]
      dsimp only
      simp only [hk, hCA, eq_self_iff_true, if_true, hfz, hexp, Bool.false_eq_true, if_false]

/-- C8 witness: the amended expiry contract instantiated on a one-entry
cache under the simple strategy. -/
theorem C8_amended_query_expiry_witness :
    cfgS.strategy ≠ CacheStrategy.NONE ∧
    ((∀ e, mapGet cacheW (CacheService.generateCacheKey cfgS sleepI none) = some e →
      (CacheService.isExpired cfgS 0 e = true →
        CacheService.query cfgS 0 sleepI none cacheW =
          .ok ({ hit := false, entry := none, reason := some "缓存已过期" },
            mapDelete cacheW (CacheService.generateCacheKey cfgS sleepI none))) ∧
      (CacheService.isExpired cfgS 0 e = false →
        CacheService.query cfgS 0 sleepI none cacheW =
          .ok ({ hit := true,
                 entry := some { e with usageCount := e.usageCount + 1, lastUsed := 0 },
                 reason := none },
            mapSet cacheW (CacheService.generateCacheKey cfgS sleepI none)
              { e with usageCount := e.usageCount + 1, lastUsed := 0 }))) ∧
    (∀ c0 k0 e, (none : Option ContextState) = some c0 →
      mapGet cacheW (CacheService.generateCacheKey cfgS sleepI none) = none →
      cfgS.strategy = CacheStrategy.CONTEXT_AWARE →
      CacheService.findFuzzyMatch sleepI c0 cacheW = .ok (some (k0, e)) →
      (k0, e) ∈ cacheW ∧
      (CacheService.isExpired cfgS 0 e = true →
        CacheService.query cfgS 0 sleepI none cacheW =
          .ok ({ hit := false, entry := none, reason := some "缓存已过期" }, cacheW)) ∧
      (CacheService.isExpired cfgS 0 e = false →
        CacheService.query cfgS 0 sleepI none cacheW =
          .ok ({ hit := true,
                 entry := some { e with usageCount := e.usageCount + 1, lastUsed := 0 },
                 reason := none },
            mapSet cacheW k0 { e with usageCount := e.usageCount + 1, lastUsed := 0 })))) :=
  ⟨by decide, C8_amended_query_expiry cfgS 0 sleepI none cacheW (by decide)⟩

/-- C8 counterexample: an expired candidate found by fuzzy match is not
deleted. `cacheB` holds one morning entry stored at time 0 with ttl
3600 s; at time 3600001 ms a same-intent query under a different snapshot
finds it by fuzzy match, sees it expired, reports a miss — and the entry
is still in the cache (the delete targeted the absent exact key). -/
theorem C8_counterexample :
    CacheService.query cfgCA 3600001 sleepI (some ctxA) cacheB =
      .ok ({ hit := false, entry := none, reason := some "缓存已过期" }, cacheB) ∧
    (mapGet cacheB keyB).isSome = true := by
  refine ⟨?_, ?_⟩ <;> decide

/-! ## MD5 test vectors (validating the digest model) -/

/-- The MD5 model reproduces the RFC 1321 test digest of the empty string. -/
theorem md5Hex_empty : md5Hex "" = "d41d8cd98f00b204e9800998ecf8427e" := by
  decide

/-- The MD5 model reproduces the RFC 1321 test digest of `"a"`. -/
theorem md5Hex_a : md5Hex "a" = "0cc175b9c0f1b6a831c399e269772661" := by
  decide

/-- The MD5 model reproduces the RFC 1321 test digest of `"abc"`. -/
theorem md5Hex_abc : md5Hex "abc" = "900150983cd24fb0d6963f7d28e17f72" := by
  decide
